import Mathlib

/-!
Shallow embedding of `dagster/core/storage/event_log.py`: the event-log storage
layer (in-memory and filesystem backends) and the filesystem watchdog tailer.

Modelling conventions:
  * `Record` stands for the opaque `EventRecord` payload; we model it as `Nat`.
  * `RunId` is a string, as in the source.
  * Python dicts keyed by run id become total functions `RunId → _`;
    a `defaultdict` default is the value a missing key maps to, and a plain
    `dict` becomes `RunId → Option _` / `RunId → Bool` (membership matters).
  * `pickle` serialization is modelled abstractly by a size function
    `sz : Record → Nat` (the number of bytes `pickle.dump` writes for a record,
    always positive) and the contract that `pickle.load` at a record boundary
    consumes exactly one serialized record, and raises `EOFError` when no
    complete record remains in the stream — both at end-of-data and at a
    partially-written (truncated) trailing record.
  * the gevent semaphores guard critical sections; the embedding is the
    sequential semantics of those critical sections, so the locks themselves
    carry no state beyond what `wipe` resets.
-/

namespace EventLog

abbrev RunId := String

abbrev Record := Nat

/-- Pipeline run status, from `pipeline_run.PipelineRunStatus`: only the two
terminal values matter to this component; everything else means "continue". -/
inductive PipelineRunStatus where
  | notStarted
  | started
  | success
  | failure
deriving DecidableEq

/-- The test on line 180: `status == PipelineRunStatus.SUCCESS or status ==
PipelineRunStatus.FAILURE`. -/
def isTerminalStatus : PipelineRunStatus → Bool
  | .success => true
  | .failure => true
  | _ => false

/-- Python list slicing `xs[k:]` for an `int` index `k`: a nonnegative start
drops the first `k` elements (saturating at the end), a negative start counts
from the end of the list, saturating at the beginning. -/
def pySliceFrom (xs : List Record) (k : Int) : List Record :=
  if 0 ≤ k then xs.drop k.toNat
  else xs.drop (xs.length - (-k).toNat)

/-! ### In-memory backend (`InMemoryEventLogStorage`, lines 74-94) -/

/-- State of `InMemoryEventLogStorage`: `self._logs`, a
`defaultdict(EventLogSequence)` mapping run id to its append-only record
sequence (default: empty).  `self._lock` holds per-run semaphores and carries
no further sequential state. -/
structure InMemoryEventLogStorage where
  logs : RunId → List Record

namespace InMemoryEventLogStorage

/-- `InMemoryEventLogStorage.__init__` (lines 75-77): empty log map. -/
def init : InMemoryEventLogStorage := ⟨fun _ => []⟩

/-- Lines 79-82: `cursor = int(cursor) + 1; return self._logs[run_id][cursor:]`. -/
def get_logs_for_run (s : InMemoryEventLogStorage) (run_id : RunId) (cursor : Int) :
    List Record :=
  pySliceFrom (s.logs run_id) (cursor + 1)

/-- Lines 88-90: `self._logs[run_id] = self._logs[run_id].append(event)`. -/
def store_event (s : InMemoryEventLogStorage) (run_id : RunId) (event : Record) :
    InMemoryEventLogStorage :=
  ⟨fun r => if r = run_id then s.logs r ++ [event] else s.logs r⟩

/-- Lines 84-86: `is_persistent` is constantly `False`. -/
def is_persistent (_s : InMemoryEventLogStorage) : Bool := false

/-- Lines 92-94: `wipe` replaces the log map and the lock table with fresh
empty `defaultdict`s. -/
def wipe (_s : InMemoryEventLogStorage) : InMemoryEventLogStorage := init

/-- Fold a list of `store_event` calls (run id, record) over the state. -/
def store_all (s : InMemoryEventLogStorage) : List (RunId × Record) →
    InMemoryEventLogStorage
  | [] => s
  | (r, e) :: rest => store_all (s.store_event r e) rest

end InMemoryEventLogStorage

/-! ### Filesystem backend (`FilesystemEventLogStorage`, lines 97-162) -/

/-- Contents of one backing file `<base_dir>/<run_id>.log`: the complete
pickled records it holds, in append order, plus whether a partially-written
(truncated) trailing record follows them. -/
structure FileContents where
  records : List Record
  truncated : Bool
deriving DecidableEq

/-- Errors a `get_logs_for_run` call can raise: `FileNotFoundError` from
`open(path, 'rb')` when no backing file exists, and the `EOFError` escaping
the record-skipping loop (lines 144-147), which is outside the
`try/except EOFError` block. -/
inductive FsReadError where
  | fileNotFound
  | eofDuringSkip
deriving DecidableEq

/-- `KeyError`, raised by `self._watchers[run_id]` on a missing key
(line 161). -/
inductive PyKeyError where
  | keyError
deriving DecidableEq

/-- State of `FilesystemEventLogStorage`: the backing directory's files
(`None` = no file for that run yet), `self.file_cursors` (a
`defaultdict(lambda: (0, 0))` of cursor/byte-offset pairs), and
`self._watchers` (a plain `dict`; we track key membership).  Locks and the
shared observer carry no further sequential state. -/
structure FilesystemEventLogStorage where
  files : RunId → Option FileContents
  file_cursors : RunId → Nat × Nat
  watchers : RunId → Bool

namespace FilesystemEventLogStorage

/-- `__init__` (lines 98-106): empty directory, default cursor cache, no
watchers. -/
def init : FilesystemEventLogStorage :=
  ⟨fun _ => none, fun _ => (0, 0), fun _ => false⟩

/-- Byte offset of the `k`-th record boundary of a file holding records `rs`,
under the modelled serialization size `sz`: the bytes of the first `k`
records. -/
def offsetUpTo (sz : Record → Nat) (rs : List Record) (k : Nat) : Nat :=
  ((rs.take k).map sz).sum

/-- Reading one record per iteration from byte offset `off` (a record
boundary) to the end of the complete records: `fd.seek(off)` followed by the
`while True: events.append(pickle.load(fd))` loop, whose final `EOFError`
(at end-of-data, or at a truncated trailing record) is caught by the
`except EOFError: pass` on lines 152-153. -/
def recordsFromOffset (sz : Record → Nat) : List Record → Nat → List Record
  | [], _ => []
  | r :: rest, off => if off = 0 then r :: rest else recordsFromOffset sz rest (off - sz r)

/-- The record-skipping loop of lines 144-147: `pickle.load` once per
iteration, `cursor` times.  Returns the remaining records, or `none` when
`pickle.load` raises before `cursor` records were skipped (fewer than
`cursor` complete records in the file) — that error is not caught. -/
def skipRecords : List Record → Nat → Option (List Record)
  | rs, 0 => some rs
  | [], _ + 1 => none
  | _ :: rest, n + 1 => skipRecords rest n

/-- Lines 134-154, `get_logs_for_run(run_id, cursor)`: open the file
(raising `FileNotFoundError` if absent); if `cursor` equals the cached cursor
for this run, seek to the cached byte offset; otherwise skip `cursor` records
from the start (an `EOFError` here escapes) and record `(cursor, fd.tell())`
in `self.file_cursors`; then read records until `EOFError`, which is caught.
Returns the records read and the resulting state. -/
def get_logs_for_run (sz : Record → Nat) (s : FilesystemEventLogStorage)
    (run_id : RunId) (cursor : Nat) :
    Except FsReadError (List Record) × FilesystemEventLogStorage :=
  match s.files run_id with
  | none => (.error .fileNotFound, s)
  | some f =>
    if cursor = (s.file_cursors run_id).1 then
      (.ok (recordsFromOffset sz f.records (s.file_cursors run_id).2), s)
    else
      match skipRecords f.records cursor with
      | none => (.error .eofDuringSkip, s)
      | some rest =>
        (.ok rest,
          { s with
            file_cursors := fun r =>
              if r = run_id then (cursor, offsetUpTo sz f.records cursor)
              else s.file_cursors r })

/-- Lines 111-118, `store_event`: open the file in append mode (creating it
if absent) and `pickle.dump` one record at the end. -/
def store_event (s : FilesystemEventLogStorage) (run_id : RunId) (event : Record) :
    FilesystemEventLogStorage :=
  { s with
    files := fun r =>
      if r = run_id then
        match s.files run_id with
        | none => some ⟨[event], false⟩
        | some f => some ⟨f.records ++ [event], f.truncated⟩
      else s.files r }

/-- Lines 120-125, `wipe`: unlink every `*.log` file, then replace the lock
table and the cursor cache with fresh defaults.  `self._watchers` is not
touched. -/
def wipe (s : FilesystemEventLogStorage) : FilesystemEventLogStorage :=
  { files := fun _ => none, file_cursors := fun _ => (0, 0), watchers := s.watchers }

/-- Lines 127-129: `is_persistent` is constantly `True`. -/
def is_persistent (_s : FilesystemEventLogStorage) : Bool := true

/-- Lines 131-132, `logs_ready`: existence check of the backing file. -/
def logs_ready (s : FilesystemEventLogStorage) (run_id : RunId) : Bool :=
  (s.files run_id).isSome

/-- Lines 156-158, `watch`: schedule a watchdog and record the watch handle
in `self._watchers[run_id]`. -/
def watch (s : FilesystemEventLogStorage) (run_id : RunId) : FilesystemEventLogStorage :=
  { s with watchers := fun r => if r = run_id then true else s.watchers r }

/-- Lines 160-162, `end_watch`: `self._obs.remove_handler_for_watch(handler,
self._watchers[run_id]); del self._watchers[run_id]`.  The subscript lookup
of `self._watchers[run_id]` happens first, so a missing key raises `KeyError`
before anything is mutated. -/
def end_watch (s : FilesystemEventLogStorage) (run_id : RunId) :
    Except PyKeyError FilesystemEventLogStorage :=
  if s.watchers run_id then
    .ok { s with watchers := fun r => if r = run_id then false else s.watchers r }
  else
    .error .keyError

/-- Fold a list of `store_event` calls (run id, record) over the state. -/
def store_all (s : FilesystemEventLogStorage) : List (RunId × Record) →
    FilesystemEventLogStorage
  | [] => s
  | (r, e) :: rest => store_all (s.store_event r e) rest

end FilesystemEventLogStorage

/-! ### Watchdog tailer (`EventLogStorageWatchdog`, lines 165-189) -/

/-- State of an `EventLogStorageWatchdog` subscribed to one run of a
`FilesystemEventLogStorage`, together with the delivery history: `cursor` is
`self._cursor`, and `delivered` records every argument the callback
`self._cb` has been invoked with, in invocation order.  The run id and
callback are parameters of the operations below. -/
structure TailerSys where
  store : FilesystemEventLogStorage
  cursor : Nat
  delivered : List Record

/-- The `for event in events:` loop of `_process_log` (lines 177-181):
invoke the callback once per record, in order; when an invocation's result
is terminal, call `end_watch` — whose `KeyError` (if the watch was already
removed) aborts the remaining iterations.  Returns the storage (whose
watcher map `end_watch` may have changed) and the delivery history. -/
def runCallbacks (cb : Record → PipelineRunStatus) (run_id : RunId) :
    FilesystemEventLogStorage → List Record → List Record →
      FilesystemEventLogStorage × List Record
  | st, delivered, [] => (st, delivered)
  | st, delivered, e :: rest =>
    if isTerminalStatus (cb e) then
      match st.end_watch run_id with
      | .ok st' => runCallbacks cb run_id st' (delivered ++ [e]) rest
      | .error _ => (st, delivered ++ [e])
    else runCallbacks cb run_id st (delivered ++ [e]) rest

/-- `_process_log` (lines 174-181): fetch the records after `self._cursor`,
advance `self._cursor` by the number of records returned — before invoking
any callback — then run the callback loop.  An error escaping
`get_logs_for_run` propagates out before the cursor is advanced or any
callback runs; the observer isolates it from other subscriptions. -/
def processLog (sz : Record → Nat) (cb : Record → PipelineRunStatus)
    (run_id : RunId) (t : TailerSys) : TailerSys :=
  match FilesystemEventLogStorage.get_logs_for_run sz t.store run_id t.cursor with
  | (.error _, st') => { t with store := st' }
  | (.ok events, st') =>
    let cursor' := t.cursor + events.length
    let (st'', delivered') := runCallbacks cb run_id st' t.delivered events
    ⟨st'', cursor', delivered'⟩

/-- Actions visible to the tailer system: the producer appends a record to
the watched run's log, or a filesystem-change notification for the watched
path reaches the watchdog (`on_created`/`on_modified`, both of which call
`_process_log`). -/
inductive Act where
  | store (e : Record)
  | notify
deriving DecidableEq

/-- One action.  A notification is dispatched to the handler only while it
is scheduled on the observer (`end_watch` removes it), and a filesystem
event for the watched path can only fire once the backing file exists;
duplicate or coalesced notifications are simply further `notify` actions. -/
def stepAct (sz : Record → Nat) (cb : Record → PipelineRunStatus) (run_id : RunId)
    (t : TailerSys) : Act → TailerSys
  | .store e => { t with store := t.store.store_event run_id e }
  | .notify =>
    if t.store.watchers run_id && (t.store.files run_id).isSome then
      processLog sz cb run_id t
    else t

/-- Run a sequence of actions. -/
def runTrace (sz : Record → Nat) (cb : Record → PipelineRunStatus) (run_id : RunId)
    (t : TailerSys) : List Act → TailerSys
  | [] => t
  | a :: rest => runTrace sz cb run_id (stepAct sz cb run_id t a) rest

/-- The records stored along a trace, in order. -/
def storesOf : List Act → List Record
  | [] => []
  | .store e :: rest => e :: storesOf rest
  | .notify :: rest => storesOf rest

/-- A tailer started at cursor 0 (`watch(run_id, 0, cb)`) on a fresh storage,
before any record is stored. -/
def initTailer (run_id : RunId) : TailerSys :=
  ⟨FilesystemEventLogStorage.init.watch run_id, 0, []⟩

/-- The claim's (and spec sentence's) reading of the in-memory cursor
contract — "returns records at positions `cursor+1` .. end": the records at
those zero-based positions `p` of the log with `cursor + 1 ≤ p`, in order. -/
def recordsAtPositionsFrom (xs : List Record) (cursor : Int) : List Record :=
  xs.drop (cursor + 1).toNat

/-! ### Basic lemmas about the embedded operations -/

open InMemoryEventLogStorage FilesystemEventLogStorage

/-- A cursor-cache entry `(c, off)` as `get_logs_for_run` writes them: `c`
does not exceed the number of complete records, and `off` is the byte offset
of the `c`-th record boundary. -/
def cacheValid (sz : Record → Nat) (rs : List Record) (e : Nat × Nat) : Prop :=
  e.1 ≤ rs.length ∧ e.2 = offsetUpTo sz rs e.1

/-- Reachability invariant of the tail scenario after `k` of the three
records e0, e1, e2 have been stored: the backing file holds exactly the
first `k` records (none at all before the first store), the cursor-cache
entry for the run is a real record boundary of that file, some prefix of the
first `k` records has been delivered to the callback, the watchdog cursor
equals the number delivered, and the watch subscription is live exactly
until the third record has been delivered. -/
def tailInv (sz : Record → Nat) (run_id : RunId) (e0 e1 e2 : Record) (k : Nat)
    (t : TailerSys) : Prop :=
  k ≤ 3 ∧
  t.store.files run_id = (if k = 0 then none else some ⟨[e0, e1, e2].take k, false⟩) ∧
  cacheValid sz ([e0, e1, e2].take k) (t.store.file_cursors run_id) ∧
  ∃ d, d ≤ k ∧ t.delivered = [e0, e1, e2].take d ∧ t.cursor = d ∧
    t.store.watchers run_id = decide (d < 3)

theorem offsetUpTo_zero (sz : Record → Nat) (rs : List Record) :
    offsetUpTo sz rs 0 = 0 := rfl

theorem cacheValid_initial (sz : Record → Nat) (rs : List Record) :
    cacheValid sz rs (0, 0) := ⟨Nat.zero_le _, rfl⟩

theorem cacheValid_append (sz : Record → Nat) (rs : List Record) (e : Record)
    (en : Nat × Nat) (h : cacheValid sz rs en) : cacheValid sz (rs ++ [e]) en := by
  obtain ⟨h1, h2⟩ := h
  refine ⟨?_, ?_⟩
  · simpa using Nat.le_succ_of_le (by simpa using h1)
  · rw [h2]
    unfold offsetUpTo
    rw [List.take_append_of_le_length h1]

theorem skipRecords_of_le (rs : List Record) (c : Nat) (h : c ≤ rs.length) :
    skipRecords rs c = some (rs.drop c) := by
  induction rs generalizing c with
  | nil =>
    have hc : c = 0 := by simpa using h
    subst hc; rfl
  | cons r rest ih =>
    cases c with
    | zero => rfl
    | succ n => exact ih n (Nat.succ_le_succ_iff.mp (by simpa using h))

theorem skipRecords_of_gt (rs : List Record) (c : Nat) (h : rs.length < c) :
    skipRecords rs c = none := by
  induction rs generalizing c with
  | nil =>
    cases c with
    | zero => omega
    | succ n => rfl
  | cons r rest ih =>
    cases c with
    | zero => omega
    | succ n => exact ih n (by simpa using h)

theorem recordsFromOffset_boundary (sz : Record → Nat) (hsz : ∀ r, 0 < sz r) :
    ∀ (rs : List Record) (k : Nat), k ≤ rs.length →
      recordsFromOffset sz rs (offsetUpTo sz rs k) = rs.drop k := by
  intro rs
  induction rs with
  | nil =>
    intro k hk
    have hk0 : k = 0 := by simpa using hk
    subst hk0; rfl
  | cons r rest ih =>
    intro k hk
    cases k with
    | zero => rfl
    | succ n =>
      have hn : n ≤ rest.length := Nat.succ_le_succ_iff.mp (by simpa using hk)
      have hoff : offsetUpTo sz (r :: rest) (n + 1) = sz r + offsetUpTo sz rest n := by
        unfold offsetUpTo
        simp
      rw [hoff]
      unfold recordsFromOffset
      have hne : ¬ (sz r + offsetUpTo sz rest n = 0) := by
        have := hsz r; omega
      simp only [hne, if_false]
      rw [Nat.add_sub_cancel_left]
      exact ih n hn

/-- Characterization of a successful `get_logs_for_run`: with a valid cursor
cache and at most as many records skipped as the file holds, it returns the
records after the first `cursor`, and the resulting state differs from `s`
at most in a (still valid) `file_cursors` entry for `run_id`. -/
theorem get_logs_for_run_ok (sz : Record → Nat) (hsz : ∀ r, 0 < sz r)
    (s : FilesystemEventLogStorage) (run_id : RunId) (f : FileContents) (c : Nat)
    (hf : s.files run_id = some f)
    (hv : cacheValid sz f.records (s.file_cursors run_id))
    (hc : c ≤ f.records.length) :
    ∃ s', FilesystemEventLogStorage.get_logs_for_run sz s run_id c =
        (.ok (f.records.drop c), s') ∧
      s'.files = s.files ∧ s'.watchers = s.watchers ∧
      cacheValid sz f.records (s'.file_cursors run_id) := by
  unfold FilesystemEventLogStorage.get_logs_for_run
  rw [hf]
  by_cases hhit : c = (s.file_cursors run_id).1
  · simp only [hhit, if_true]
    refine ⟨s, ?_, rfl, rfl, hv⟩
    rw [hv.2, ← hhit, recordsFromOffset_boundary sz hsz f.records c hc]
  · simp only [hhit, if_false]
    rw [skipRecords_of_le f.records c hc]
    refine ⟨_, rfl, rfl, rfl, ?_⟩
    simp only [if_pos rfl]
    exact ⟨hc, rfl⟩

/-- With a valid cursor cache, skipping strictly more records than the file
holds makes the skip loop hit end-of-file: the call raises and the state is
unchanged. -/
theorem get_logs_for_run_eof (sz : Record → Nat)
    (s : FilesystemEventLogStorage) (run_id : RunId) (f : FileContents) (c : Nat)
    (hf : s.files run_id = some f)
    (hmiss : (s.file_cursors run_id).1 ≠ c)
    (hc : f.records.length < c) :
    FilesystemEventLogStorage.get_logs_for_run sz s run_id c =
      (.error .eofDuringSkip, s) := by
  unfold FilesystemEventLogStorage.get_logs_for_run
  rw [hf]
  have hne : ¬ (c = (s.file_cursors run_id).1) := fun h => hmiss h.symm
  simp only [hne, if_false]
  rw [skipRecords_of_gt f.records c hc]

theorem get_logs_for_run_notFound (sz : Record → Nat)
    (s : FilesystemEventLogStorage) (run_id : RunId) (c : Nat)
    (hf : s.files run_id = none) :
    FilesystemEventLogStorage.get_logs_for_run sz s run_id c =
      (.error .fileNotFound, s) := by
  unfold FilesystemEventLogStorage.get_logs_for_run
  rw [hf]

theorem pySliceFrom_nil (k : Int) : pySliceFrom [] k = [] := by
  unfold pySliceFrom
  split <;> simp

/-- `store_all` on the in-memory backend: the log of `r` receives exactly the
records of the calls addressed to `r`, in call order. -/
theorem inMem_store_all_logs (ps : List (RunId × Record)) :
    ∀ (s : InMemoryEventLogStorage) (r : RunId),
      (InMemoryEventLogStorage.store_all s ps).logs r =
        s.logs r ++ (ps.filter (fun p => p.1 = r)).map Prod.snd := by
  induction ps with
  | nil => intro s r; simp [InMemoryEventLogStorage.store_all]
  | cons q rest ih =>
    intro s r
    rw [InMemoryEventLogStorage.store_all, ih]
    obtain ⟨q1, q2⟩ := q
    by_cases hq : q1 = r
    · subst hq
      simp [InMemoryEventLogStorage.store_event, List.filter_cons]
    · have hq' : ¬ (r = q1) := fun h => hq h.symm
      simp [InMemoryEventLogStorage.store_event, List.filter_cons, hq, hq']

theorem pairs_filter_map (run : RunId) (es : List Record) :
    (((es.map fun e => (run, e)).filter fun p => p.1 = run).map Prod.snd) = es := by
  induction es with
  | nil => rfl
  | cons e rest ih => simpa [List.filter_cons] using ih

theorem fs_store_event_file_cursors (s : FilesystemEventLogStorage) (run_id : RunId)
    (e : Record) : (s.store_event run_id e).file_cursors = s.file_cursors := rfl

theorem fs_store_all_file_cursors (ps : List (RunId × Record)) :
    ∀ s : FilesystemEventLogStorage,
      (FilesystemEventLogStorage.store_all s ps).file_cursors = s.file_cursors := by
  induction ps with
  | nil => intro s; rfl
  | cons q rest ih =>
    intro s
    rw [FilesystemEventLogStorage.store_all, ih]
    rfl

theorem fs_store_all_files_none (ps : List (RunId × Record)) :
    ∀ (s : FilesystemEventLogStorage) (r : RunId), s.files r = none →
      (∀ p ∈ ps, p.1 ≠ r) → (FilesystemEventLogStorage.store_all s ps).files r = none := by
  induction ps with
  | nil => intro s r h _; exact h
  | cons q rest ih =>
    intro s r h hptr
    rw [FilesystemEventLogStorage.store_all]
    refine ih _ r ?_ (fun p hp => hptr p (List.mem_cons_of_mem q hp))
    have hq : q.1 ≠ r := hptr q (List.mem_cons_self q rest)
    have hr : ¬ (r = q.1) := fun hh => hq hh.symm
    simp [FilesystemEventLogStorage.store_event, hr, h]

theorem fs_store_run_records (es : List Record) (run : RunId) :
    ∀ (s : FilesystemEventLogStorage) (rs : List Record),
      s.files run = some ⟨rs, false⟩ →
      (FilesystemEventLogStorage.store_all s (es.map fun e => (run, e))).files run =
        some ⟨rs ++ es, false⟩ := by
  induction es with
  | nil => intro s rs h; simpa [FilesystemEventLogStorage.store_all] using h
  | cons e rest ih =>
    intro s rs h
    rw [List.map_cons, FilesystemEventLogStorage.store_all]
    have hstep : (s.store_event run e).files run = some ⟨rs ++ [e], false⟩ := by
      simp [FilesystemEventLogStorage.store_event, h]
    simpa using ih _ (rs ++ [e]) hstep

theorem fs_store_run_from_none (es : List Record) (run : RunId) (hne : es ≠ []) :
    ∀ s : FilesystemEventLogStorage, s.files run = none →
      (FilesystemEventLogStorage.store_all s (es.map fun e => (run, e))).files run =
        some ⟨es, false⟩ := by
  cases es with
  | nil => exact absurd rfl hne
  | cons e rest =>
    intro s h
    rw [List.map_cons, FilesystemEventLogStorage.store_all]
    have hstep : (s.store_event run e).files run = some ⟨[e], false⟩ := by
      simp [FilesystemEventLogStorage.store_event, h]
    simpa using fs_store_run_records rest run _ [e] hstep

/-! ### Lemmas about the watchdog tailer -/

theorem runCallbacks_all_nonterminal (cb : Record → PipelineRunStatus) (run_id : RunId) :
    ∀ (evs : List Record) (st : FilesystemEventLogStorage) (del : List Record),
      (∀ e ∈ evs, isTerminalStatus (cb e) = false) →
      runCallbacks cb run_id st del evs = (st, del ++ evs) := by
  intro evs
  induction evs with
  | nil => intro st del _; simp [runCallbacks]
  | cons e rest ih =>
    intro st del h
    rw [runCallbacks]
    have he : isTerminalStatus (cb e) = false := h e (List.mem_cons_self e rest)
    simp only [he, Bool.false_eq_true, if_false]
    rw [ih _ _ (fun x hx => h x (List.mem_cons_of_mem e hx))]
    simp

theorem end_watch_of_subscribed (s : FilesystemEventLogStorage) (run_id : RunId)
    (hw : s.watchers run_id = true) :
    s.end_watch run_id =
      .ok { s with watchers := fun r => if r = run_id then false else s.watchers r } := by
  unfold FilesystemEventLogStorage.end_watch
  simp [hw]

theorem runCallbacks_terminal_last (cb : Record → PipelineRunStatus) (run_id : RunId)
    (elast : Record) (hterm : isTerminalStatus (cb elast) = true) :
    ∀ (evs : List Record) (st : FilesystemEventLogStorage) (del : List Record),
      (∀ e ∈ evs, isTerminalStatus (cb e) = false) →
      st.watchers run_id = true →
      runCallbacks cb run_id st del (evs ++ [elast]) =
        ({ st with watchers := fun r => if r = run_id then false else st.watchers r },
          del ++ evs ++ [elast]) := by
  intro evs
  induction evs with
  | nil =>
    intro st del _ hw
    rw [List.nil_append, runCallbacks]
    simp only [hterm, if_true]
    rw [end_watch_of_subscribed st run_id hw]
    simp [runCallbacks]
  | cons e rest ih =>
    intro st del h hw
    rw [List.cons_append, runCallbacks]
    have he : isTerminalStatus (cb e) = false := h e (List.mem_cons_self e rest)
    simp only [he, Bool.false_eq_true, if_false]
    rw [ih st (del ++ [e]) (fun x hx => h x (List.mem_cons_of_mem e hx)) hw]
    simp

theorem processLog_ok (sz : Record → Nat) (cb : Record → PipelineRunStatus)
    (run_id : RunId) (t : TailerSys) (events : List Record)
    (s' : FilesystemEventLogStorage)
    (heq : FilesystemEventLogStorage.get_logs_for_run sz t.store run_id t.cursor =
      (.ok events, s')) :
    processLog sz cb run_id t =
      ⟨(runCallbacks cb run_id s' t.delivered events).1,
        t.cursor + events.length,
        (runCallbacks cb run_id s' t.delivered events).2⟩ := by
  unfold processLog
  rw [heq]

theorem stepAct_notify_go (sz : Record → Nat) (cb : Record → PipelineRunStatus)
    (run_id : RunId) (t : TailerSys)
    (h1 : t.store.watchers run_id = true) (h2 : (t.store.files run_id).isSome = true) :
    stepAct sz cb run_id t .notify = processLog sz cb run_id t := by
  unfold stepAct
  rw [h1, h2]
  rfl

theorem stepAct_notify_unsubscribed (sz : Record → Nat)
    (cb : Record → PipelineRunStatus) (run_id : RunId) (t : TailerSys)
    (h : t.store.watchers run_id = false) :
    stepAct sz cb run_id t .notify = t := by
  unfold stepAct
  rw [h]
  rfl

theorem stepAct_notify_no_file (sz : Record → Nat) (cb : Record → PipelineRunStatus)
    (run_id : RunId) (t : TailerSys) (h : t.store.files run_id = none) :
    stepAct sz cb run_id t .notify = t := by
  unfold stepAct
  rw [h]
  simp

theorem runTrace_append (sz : Record → Nat) (cb : Record → PipelineRunStatus)
    (run_id : RunId) :
    ∀ (tr₁ tr₂ : List Act) (t : TailerSys),
      runTrace sz cb run_id t (tr₁ ++ tr₂) =
        runTrace sz cb run_id (runTrace sz cb run_id t tr₁) tr₂ := by
  intro tr₁
  induction tr₁ with
  | nil => intro tr₂ t; rfl
  | cons a rest ih => intro tr₂ t; rw [List.cons_append, runTrace, runTrace, ih]

theorem runTrace_no_delivery (sz : Record → Nat) (cb : Record → PipelineRunStatus)
    (run_id : RunId) :
    ∀ (tr : List Act) (t : TailerSys), storesOf tr = [] →
      t.store.watchers run_id = false → runTrace sz cb run_id t tr = t := by
  intro tr
  induction tr with
  | nil => intro t _ _; rfl
  | cons a rest ih =>
    intro t hs hw
    cases a with
    | store e => simp [storesOf] at hs
    | notify =>
      rw [runTrace, stepAct_notify_unsubscribed sz cb run_id t hw]
      exact ih t (by simpa [storesOf] using hs) hw

theorem tailInv_store (sz : Record → Nat) (cb : Record → PipelineRunStatus)
    (run_id : RunId) (e0 e1 e2 : Record) (k : Nat) (t : TailerSys) (e : Record)
    (hInv : tailInv sz run_id e0 e1 e2 k t) (hk : k < 3)
    (he : [e0, e1, e2].take k ++ [e] = [e0, e1, e2].take (k + 1)) :
    tailInv sz run_id e0 e1 e2 (k + 1) (stepAct sz cb run_id t (.store e)) := by
  obtain ⟨hk3, hfiles, hcache, d, hdk, hdel, hcur, hw⟩ := hInv
  have hstep : (t.store.store_event run_id e).files run_id =
      match t.store.files run_id with
      | none => some ⟨[e], false⟩
      | some f => some ⟨f.records ++ [e], f.truncated⟩ := by
    simp [FilesystemEventLogStorage.store_event]
  refine ⟨by omega, ?_, ?_, d, by omega, hdel, hcur, hw⟩
  · show (t.store.store_event run_id e).files run_id = _
    by_cases hk0 : k = 0
    · subst hk0
      simp only [if_pos rfl] at hfiles
      rw [hstep, hfiles, ← he]
      simp
    · simp only [if_neg hk0] at hfiles
      rw [hstep, hfiles, ← he]
      simp
  · show cacheValid sz _ ((t.store.store_event run_id e).file_cursors run_id)
    rw [fs_store_event_file_cursors, ← he]
    exact cacheValid_append sz _ e _ hcache

theorem tailInv_notify (sz : Record → Nat) (hsz : ∀ r, 0 < sz r)
    (cb : Record → PipelineRunStatus) (run_id : RunId) (e0 e1 e2 : Record)
    (hcb0 : isTerminalStatus (cb e0) = false)
    (hcb1 : isTerminalStatus (cb e1) = false)
    (hcb2 : isTerminalStatus (cb e2) = true)
    (k : Nat) (t : TailerSys) (hInv : tailInv sz run_id e0 e1 e2 k t) :
    tailInv sz run_id e0 e1 e2 k (stepAct sz cb run_id t .notify) ∧
      (k = 3 → (stepAct sz cb run_id t .notify).delivered = [e0, e1, e2] ∧
        (stepAct sz cb run_id t .notify).store.watchers run_id = false) := by
  obtain ⟨hk3, hfiles, hcache, d, hdk, hdel, hcur, hw⟩ := hInv
  by_cases hwT : t.store.watchers run_id = true
  case neg =>
    have hwF : t.store.watchers run_id = false := by
      cases hb : t.store.watchers run_id
      · rfl
      · exact absurd hb hwT
    rw [stepAct_notify_unsubscribed sz cb run_id t hwF]
    have hd3 : d = 3 := by
      rw [hwF] at hw
      have : ¬ (d < 3) := of_decide_eq_false hw.symm
      omega
    refine ⟨⟨hk3, hfiles, hcache, d, hdk, hdel, hcur, hw⟩, fun _ => ⟨?_, hwF⟩⟩
    rw [hdel, hd3]
    rfl
  case pos =>
    have hd3 : d < 3 := by
      rw [hwT] at hw
      exact of_decide_eq_true hw.symm
    by_cases hk0 : k = 0
    · subst hk0
      simp only [if_pos rfl] at hfiles
      rw [stepAct_notify_no_file sz cb run_id t hfiles]
      refine ⟨⟨hk3, by simpa using hfiles, hcache, d, hdk, hdel, hcur, hw⟩, ?_⟩
      intro h
      exact absurd h (by omega)
    · simp only [if_neg hk0] at hfiles
      have hlen : ([e0, e1, e2].take k).length = k := by
        rw [List.length_take, show ([e0, e1, e2] : List Record).length = 3 from rfl]
        exact Nat.min_eq_left hk3
      have hsome : (t.store.files run_id).isSome = true := by rw [hfiles]; rfl
      rw [stepAct_notify_go sz cb run_id t hwT hsome]
      obtain ⟨s', heq, hsf, hswatch, hscache⟩ :=
        get_logs_for_run_ok sz hsz t.store run_id ⟨[e0, e1, e2].take k, false⟩ d hfiles
          hcache (by rw [hlen]; exact hdk)
      rw [processLog_ok sz cb run_id t _ s' (by rw [hcur]; exact heq)]
      rw [hdel, hcur]
      have hs'w : s'.watchers run_id = true := by rw [hswatch]; exact hwT
      have hs'files : s'.files run_id = some ⟨[e0, e1, e2].take k, false⟩ := by
        rw [hsf]; exact hfiles
      by_cases hkk : k = 3
      · subst hkk
        have hsplit : (([e0, e1, e2].take 3).drop d : List Record) =
            [e0, e1].drop d ++ [e2] := by
          rw [show (([e0, e1, e2].take 3) : List Record) = [e0, e1] ++ [e2] from rfl,
            List.drop_append_of_le_length (by simp; omega)]
        have hmem3 : ∀ x ∈ [e0, e1].drop d, isTerminalStatus (cb x) = false := by
          intro x hx
          have hx2 : x ∈ [e0, e1] := List.drop_subset d [e0, e1] hx
          rcases (by simpa using hx2 : x = e0 ∨ x = e1) with rfl | rfl
          · exact hcb0
          · exact hcb1
        rw [hsplit, runCallbacks_terminal_last cb run_id e2 hcb2 ([e0, e1].drop d) s'
          ([e0, e1, e2].take d) hmem3 hs'w]
        have hdel3 : [e0, e1, e2].take d ++ [e0, e1].drop d ++ [e2] = [e0, e1, e2] := by
          have htd2 : ([e0, e1, e2].take d : List Record) = [e0, e1].take d := by
            rw [show ([e0, e1, e2].take d : List Record) =
                  ([e0, e1, e2].take 2).take d by
                rw [List.take_take, Nat.min_eq_left (by omega)],
              show (([e0, e1, e2].take 2) : List Record) = [e0, e1] from rfl]
          rw [htd2, List.take_append_drop]
          rfl
        refine ⟨⟨by omega, ?_, ?_, 3, le_refl 3, ?_, ?_, ?_⟩, fun _ => ⟨?_, ?_⟩⟩
        · show s'.files run_id = _
          rw [hs'files]
          simp
        · show cacheValid sz _ (s'.file_cursors run_id)
          exact hscache
        · show [e0, e1, e2].take d ++ [e0, e1].drop d ++ [e2] = [e0, e1, e2].take 3
          exact hdel3
        · show d + ([e0, e1].drop d ++ [e2]).length = 3
          rw [List.length_append, List.length_drop]
          simp
          omega
        · show (if run_id = run_id then false else s'.watchers run_id) = decide (3 < 3)
          simp
        · show [e0, e1, e2].take d ++ [e0, e1].drop d ++ [e2] = [e0, e1, e2]
          exact hdel3
        · show (if run_id = run_id then false else s'.watchers run_id) = false
          simp
      · have hk2 : k ≤ 2 := by omega
        have htk2 : ([e0, e1, e2].take k : List Record) = [e0, e1].take k := by
          rw [show ([e0, e1, e2].take k : List Record) = ([e0, e1, e2].take 2).take k by
              rw [List.take_take, Nat.min_eq_left hk2],
            show (([e0, e1, e2].take 2) : List Record) = [e0, e1] from rfl]
        have hmem : ∀ x ∈ ([e0, e1, e2].take k).drop d,
            isTerminalStatus (cb x) = false := by
          intro x hx
          have hx1 : x ∈ [e0, e1, e2].take k :=
            List.drop_subset d ([e0, e1, e2].take k) hx
          rw [htk2] at hx1
          have hxk2 : x ∈ [e0, e1] := List.take_subset k [e0, e1] hx1
          rcases (by simpa using hxk2 : x = e0 ∨ x = e1) with rfl | rfl
          · exact hcb0
          · exact hcb1
        rw [runCallbacks_all_nonterminal cb run_id (([e0, e1, e2].take k).drop d) s'
          ([e0, e1, e2].take d) hmem]
        have htdk : ([e0, e1, e2].take d : List Record) = ([e0, e1, e2].take k).take d := by
          rw [List.take_take, Nat.min_eq_left hdk]
        have hdelk : [e0, e1, e2].take d ++ ([e0, e1, e2].take k).drop d =
            [e0, e1, e2].take k := by
          rw [htdk, List.take_append_drop]
        refine ⟨⟨hk3, ?_, ?_, k, le_refl k, ?_, ?_, ?_⟩, fun h => absurd h hkk⟩
        · show s'.files run_id = _
          rw [hs'files]
          simp [hk0]
        · show cacheValid sz _ (s'.file_cursors run_id)
          exact hscache
        · show [e0, e1, e2].take d ++ ([e0, e1, e2].take k).drop d = [e0, e1, e2].take k
          exact hdelk
        · show d + (([e0, e1, e2].take k).drop d).length = k
          rw [List.length_drop, hlen]
          omega
        · show s'.watchers run_id = decide (k < 3)
          rw [hs'w]
          exact (decide_eq_true (by omega)).symm


theorem tailInv_init (sz : Record → Nat) (run_id : RunId) (e0 e1 e2 : Record) :
    tailInv sz run_id e0 e1 e2 0 (initTailer run_id) := by
  refine ⟨by omega, rfl, cacheValid_initial sz _, 0, le_refl 0, rfl, rfl, ?_⟩
  show (if run_id = run_id then true else false) = decide (0 < 3)
  simp

theorem tailInv_runTrace (sz : Record → Nat) (hsz : ∀ r, 0 < sz r)
    (cb : Record → PipelineRunStatus) (run_id : RunId) (e0 e1 e2 : Record)
    (hcb0 : isTerminalStatus (cb e0) = false)
    (hcb1 : isTerminalStatus (cb e1) = false)
    (hcb2 : isTerminalStatus (cb e2) = true) :
    ∀ (tr : List Act) (k : Nat) (t : TailerSys),
      tailInv sz run_id e0 e1 e2 k t →
      (∃ u, [e0, e1, e2].take k ++ storesOf tr ++ u = [e0, e1, e2]) →
      tailInv sz run_id e0 e1 e2 (k + (storesOf tr).length)
        (runTrace sz cb run_id t tr) := by
  intro tr
  induction tr with
  | nil =>
    intro k t hInv _
    simpa [storesOf, runTrace] using hInv
  | cons a rest ih =>
    intro k t hInv hpre
    cases a with
    | notify =>
      rw [runTrace]
      have h1 := (tailInv_notify sz hsz cb run_id e0 e1 e2 hcb0 hcb1 hcb2 k t hInv).1
      have h2 := ih k _ h1 (by simpa [storesOf] using hpre)
      simpa [storesOf] using h2
    | store e =>
      rw [runTrace]
      obtain ⟨u, hu⟩ := hpre
      rw [show storesOf (.store e :: rest) = e :: storesOf rest from rfl] at hu
      have hk3 := hInv.1
      have hidx : k + (storesOf (Act.store e :: rest)).length =
          (k + 1) + (storesOf rest).length := by
        simp only [storesOf, List.length_cons]
        omega
      rw [hidx]
      interval_cases k
      · have hu' : e :: (storesOf rest ++ u) = [e0, e1, e2] := by simpa using hu
        injection hu' with h1 h2
        rw [h1]
        refine ih 1 _ (tailInv_store sz cb run_id e0 e1 e2 0 t e0 hInv (by omega) rfl)
          ⟨u, ?_⟩
        show [e0] ++ storesOf rest ++ u = [e0, e1, e2]
        simp only [List.append_assoc, List.cons_append, List.nil_append]
        rw [h2]
      · have hu' : e0 :: (e :: (storesOf rest ++ u)) = [e0, e1, e2] := by simpa using hu
        injection hu' with h0 hu''
        injection hu'' with h1 h2
        rw [h1]
        refine ih 2 _ (tailInv_store sz cb run_id e0 e1 e2 1 t e1 hInv (by omega) rfl)
          ⟨u, ?_⟩
        show [e0, e1] ++ storesOf rest ++ u = [e0, e1, e2]
        simp only [List.append_assoc, List.cons_append, List.nil_append]
        rw [h2]
      · have hu' : e0 :: e1 :: (e :: (storesOf rest ++ u)) = [e0, e1, e2] := by
          simpa using hu
        injection hu' with h0 hu''
        injection hu'' with h1 hu'''
        injection hu''' with h2 h3
        rw [h2]
        refine ih 3 _ (tailInv_store sz cb run_id e0 e1 e2 2 t e2 hInv (by omega) rfl)
          ⟨u, ?_⟩
        show [e0, e1, e2] ++ storesOf rest ++ u = [e0, e1, e2]
        simp only [List.append_assoc, List.cons_append, List.nil_append]
        rw [h3]
      · exfalso
        have hu' : e0 :: e1 :: e2 :: (e :: (storesOf rest ++ u)) = [e0, e1, e2] := by
          simpa using hu
        injection hu' with h0 hu''
        injection hu'' with h1 hu'''
        injection hu''' with h2 h3
        exact List.cons_ne_nil e _ h3

/-! ### Claims -/

/-- C1: for either backend, after storing a sequence of records for a run id
(starting from the fresh state), `get_logs_for_run` with the backend's
from-the-beginning sentinel (-1 in memory, 0 on the filesystem) returns
exactly that sequence in call order.  On the filesystem backend the sequence
must be nonempty: with no store at all there is no backing file and the read
raises `FileNotFoundError` instead (see C8). -/
theorem C1_completeness (run : RunId) (es : List Record) (sz : Record → Nat)
    (hsz : ∀ r, 0 < sz r) :
    (InMemoryEventLogStorage.store_all .init (es.map fun e => (run, e))).get_logs_for_run
        run (-1) = es ∧
    (es ≠ [] →
      (FilesystemEventLogStorage.get_logs_for_run sz
        (FilesystemEventLogStorage.store_all .init (es.map fun e => (run, e))) run 0).1 =
        .ok es) := by
  constructor
  · rw [InMemoryEventLogStorage.get_logs_for_run, inMem_store_all_logs, pairs_filter_map]
    show pySliceFrom ((InMemoryEventLogStorage.init).logs run ++ es) (-1 + 1) = es
    simp [InMemoryEventLogStorage.init, pySliceFrom]
  · intro hne
    have hfile := fs_store_run_from_none es run hne FilesystemEventLogStorage.init rfl
    have hcur : (FilesystemEventLogStorage.store_all .init
        (es.map fun e => (run, e))).file_cursors run = (0, 0) := by
      rw [fs_store_all_file_cursors]
      rfl
    obtain ⟨s', heq, -, -, -⟩ :=
      get_logs_for_run_ok sz hsz _ run ⟨es, false⟩ 0 hfile
        (by rw [hcur]; exact cacheValid_initial sz es) (Nat.zero_le _)
    rw [heq]
    simp

theorem C1_witness :
    (∀ r : Record, 0 < r + 1) ∧
      (InMemoryEventLogStorage.store_all .init
        ([10, 20, 30].map fun e => (("r1" : RunId), (e : Record)))).get_logs_for_run
          "r1" (-1) = [10, 20, 30] ∧
      (FilesystemEventLogStorage.get_logs_for_run (fun r => r + 1)
        (FilesystemEventLogStorage.store_all .init
          ([10, 20, 30].map fun e => (("r1" : RunId), (e : Record)))) "r1" 0).1 =
        .ok [10, 20, 30] :=
  ⟨fun r => Nat.succ_pos r,
    (C1_completeness "r1" [10, 20, 30] (fun r => r + 1) fun r => Nat.succ_pos r).1,
    (C1_completeness "r1" [10, 20, 30] (fun r => r + 1) fun r => Nat.succ_pos r).2
      (by decide)⟩

/-- C3: for the filesystem backend, the result of `get_logs_for_run` does not
depend on the cursor-cache state: any two states holding the same backing
file for the run and any cursor-cache entries the code can have written (a
record-count/byte-offset pair of an actual record boundary) yield the same
result for every cursor — whether the requested cursor hits the cached entry
(seek path) or misses it (scan-from-start path). -/
theorem C3_cache_state_never_affects_result (sz : Record → Nat) (hsz : ∀ r, 0 < sz r)
    (run_id : RunId) (c : Nat) (f : FileContents)
    (s₁ s₂ : FilesystemEventLogStorage)
    (h₁ : s₁.files run_id = some f) (h₂ : s₂.files run_id = some f)
    (hv₁ : cacheValid sz f.records (s₁.file_cursors run_id))
    (hv₂ : cacheValid sz f.records (s₂.file_cursors run_id)) :
    (FilesystemEventLogStorage.get_logs_for_run sz s₁ run_id c).1 =
      (FilesystemEventLogStorage.get_logs_for_run sz s₂ run_id c).1 := by
  rcases Nat.lt_or_ge f.records.length c with hc | hc
  · have m₁ : (s₁.file_cursors run_id).1 ≠ c := by have := hv₁.1; omega
    have m₂ : (s₂.file_cursors run_id).1 ≠ c := by have := hv₂.1; omega
    rw [get_logs_for_run_eof sz s₁ run_id f c h₁ m₁ hc,
      get_logs_for_run_eof sz s₂ run_id f c h₂ m₂ hc]
  · obtain ⟨s₁', e₁, -, -, -⟩ := get_logs_for_run_ok sz hsz s₁ run_id f c h₁ hv₁ hc
    obtain ⟨s₂', e₂, -, -, -⟩ := get_logs_for_run_ok sz hsz s₂ run_id f c h₂ hv₂ hc
    rw [e₁, e₂]

theorem C3_witness :
    (({ files := fun r => if r = "r1" then some ⟨[10, 20, 30], false⟩ else none,
        file_cursors := fun _ => (1, 11),
        watchers := fun _ => false } : FilesystemEventLogStorage).files "r1" =
          some ⟨[10, 20, 30], false⟩ ∧
      cacheValid (fun r => r + 1) [10, 20, 30] (1, 11) ∧
      cacheValid (fun r => r + 1) [10, 20, 30] (0, 0)) ∧
      (FilesystemEventLogStorage.get_logs_for_run (fun r => r + 1)
        { files := fun r => if r = "r1" then some ⟨[10, 20, 30], false⟩ else none,
          file_cursors := fun _ => (1, 11), watchers := fun _ => false } "r1" 1).1 =
      (FilesystemEventLogStorage.get_logs_for_run (fun r => r + 1)
        { files := fun r => if r = "r1" then some ⟨[10, 20, 30], false⟩ else none,
          file_cursors := fun _ => (0, 0), watchers := fun _ => false } "r1" 1).1 :=
  ⟨⟨by simp, ⟨by decide, by decide⟩, ⟨by decide, by decide⟩⟩,
    C3_cache_state_never_affects_result (fun r => r + 1) (fun r => Nat.succ_pos r)
      "r1" 1 ⟨[10, 20, 30], false⟩ _ _ (by simp) (by simp)
      ⟨by decide, by decide⟩ ⟨by decide, by decide⟩⟩

/-- C6, counterexample to the claim as stated ("for every cursor c"): with
log [10, 20, 30] for run "r1", cursor -2 returns [30] (the Python slice
counts -1 from the end of the list), not the records at positions
max(-1, 0) .. 2, which are the whole log. -/
theorem C6_counterexample :
    (InMemoryEventLogStorage.store_all .init
      [(("r1" : RunId), (10 : Record)), ("r1", 20), ("r1", 30)]).get_logs_for_run
        "r1" (-2) ≠
      recordsAtPositionsFrom
        ((InMemoryEventLogStorage.store_all .init
          [(("r1" : RunId), (10 : Record)), ("r1", 20), ("r1", 30)]).logs "r1") (-2) := by
  decide

/-- C6, amended: for every cursor `c ≥ -1`, the in-memory
`get_logs_for_run(run_id, c)` returns exactly the records at positions
`c+1` .. `n-1` of the log, in order — in particular the whole log at the -1
sentinel, and [e2] at cursor 1 after storing e0, e1, e2. -/
theorem C6_amended_nonnegative_suffix (s : InMemoryEventLogStorage) (run_id : RunId)
    (c : Int) (hc : -1 ≤ c) :
    s.get_logs_for_run run_id c = recordsAtPositionsFrom (s.logs run_id) c := by
  rw [InMemoryEventLogStorage.get_logs_for_run, recordsAtPositionsFrom, pySliceFrom]
  have h0 : 0 ≤ c + 1 := by omega
  simp only [h0, if_true]

theorem C6_witness :
    ((-1 : Int) ≤ 1) ∧
      (InMemoryEventLogStorage.store_all .init
        [(("r1" : RunId), (10 : Record)), ("r1", 20), ("r1", 30)]).get_logs_for_run
          "r1" 1 =
        recordsAtPositionsFrom
          ((InMemoryEventLogStorage.store_all .init
            [(("r1" : RunId), (10 : Record)), ("r1", 20), ("r1", 30)]).logs "r1") 1 :=
  ⟨by decide, C6_amended_nonnegative_suffix _ "r1" 1 (by decide)⟩

/-- C7: `wipe` is total, not scoped to one run id.  After `wipe()` every run
id — populated or not — reads back as the empty sequence on the in-memory
backend (for every cursor) and as `FileNotFoundError` on the filesystem
backend; the filesystem cursor cache is reset to its default for every run
id; and the `is_persistent` capability flag of each backend is unchanged. -/
theorem C7_wipe_completeness (s_mem : InMemoryEventLogStorage)
    (s_fs : FilesystemEventLogStorage) (sz : Record → Nat) :
    (∀ (run_id : RunId) (cursor : Int),
        s_mem.wipe.get_logs_for_run run_id cursor = []) ∧
    (∀ (run_id : RunId) (cursor : Nat),
        FilesystemEventLogStorage.get_logs_for_run sz s_fs.wipe run_id cursor =
          (.error .fileNotFound, s_fs.wipe)) ∧
    (∀ run_id, s_fs.wipe.file_cursors run_id = (0, 0)) ∧
    s_mem.wipe.is_persistent = s_mem.is_persistent ∧
    s_fs.wipe.is_persistent = s_fs.is_persistent := by
  refine ⟨?_, ?_, fun _ => rfl, rfl, rfl⟩
  · intro run_id cursor
    rw [InMemoryEventLogStorage.get_logs_for_run]
    exact pySliceFrom_nil _
  · intro run_id cursor
    exact get_logs_for_run_notFound sz _ run_id cursor rfl

/-- C4 fails on the code: `end_watch` evaluates `self._watchers[run_id]` on a
plain dict (line 161), so calling it again after a successful `end_watch`
(which did `del self._watchers[run_id]`) raises `KeyError` — it is not the
safe no-op the specification requires.  Here: `watch("r1")`, then one
`end_watch` (which succeeds), then a second `end_watch`, which raises. -/
theorem C4_second_end_watch_raises_keyError :
    Except.bind ((FilesystemEventLogStorage.init.watch "r1").end_watch "r1")
      (fun s => s.end_watch "r1") = .error .keyError := rfl

/-- C2: a tailer started at cursor 0 on a run that receives records e0, e1,
e2 in that order, whose callback is non-terminal on e0 and e1 and returns
the terminal success status on e2.  Over every interleaving of the three
stores with arbitrarily many notifications (duplicates and coalesced
notifications are just further `notify` actions): (i) at every point the
callback has been invoked exactly on a prefix of [e0, e1, e2], in order,
and the watchdog cursor equals the number of records delivered — the cursor
is advanced by the batch size before the batch's callbacks run, so
re-reading after a duplicate notification yields an empty batch and no
duplicate delivery; (ii) once all three records are stored, the next
notification completes the delivery of exactly [e0, e1, e2] and the tailer
has unsubscribed itself; (iii) after that, any further notifications
deliver nothing. -/
theorem C2_tail_exactness (sz : Record → Nat) (hsz : ∀ r, 0 < sz r)
    (run_id : RunId) (e0 e1 e2 : Record) (cb : Record → PipelineRunStatus)
    (hcb0 : isTerminalStatus (cb e0) = false)
    (hcb1 : isTerminalStatus (cb e1) = false)
    (hcb2 : cb e2 = .success) :
    (∀ tr : List Act, (∃ u, storesOf tr ++ u = [e0, e1, e2]) →
      ∃ d, d ≤ 3 ∧
        (runTrace sz cb run_id (initTailer run_id) tr).delivered =
          [e0, e1, e2].take d ∧
        (runTrace sz cb run_id (initTailer run_id) tr).cursor = d) ∧
    (∀ tr : List Act, storesOf tr = [e0, e1, e2] →
      (runTrace sz cb run_id (initTailer run_id) (tr ++ [.notify])).delivered =
          [e0, e1, e2] ∧
        (runTrace sz cb run_id (initTailer run_id)
            (tr ++ [.notify])).store.watchers run_id = false ∧
        ∀ tr₂ : List Act, storesOf tr₂ = [] →
          (runTrace sz cb run_id (initTailer run_id)
            (tr ++ [.notify] ++ tr₂)).delivered = [e0, e1, e2]) := by
  have hcb2' : isTerminalStatus (cb e2) = true := by rw [hcb2]; rfl
  constructor
  · intro tr hpre
    have hInv := tailInv_runTrace sz hsz cb run_id e0 e1 e2 hcb0 hcb1 hcb2' tr 0
      (initTailer run_id) (tailInv_init sz run_id e0 e1 e2) (by simpa using hpre)
    obtain ⟨hk3, -, -, d, hdk, hdel, hcur, -⟩ := hInv
    exact ⟨d, by omega, hdel, hcur⟩
  · intro tr hst
    have hInv := tailInv_runTrace sz hsz cb run_id e0 e1 e2 hcb0 hcb1 hcb2' tr 0
      (initTailer run_id) (tailInv_init sz run_id e0 e1 e2)
      ⟨[], by simp [hst]⟩
    rw [hst] at hInv
    have hInv3 : tailInv sz run_id e0 e1 e2 3
        (runTrace sz cb run_id (initTailer run_id) tr) := hInv
    have hT : runTrace sz cb run_id (initTailer run_id) (tr ++ [.notify]) =
        stepAct sz cb run_id (runTrace sz cb run_id (initTailer run_id) tr) .notify := by
      rw [runTrace_append]
      rfl
    have hnot := (tailInv_notify sz hsz cb run_id e0 e1 e2 hcb0 hcb1 hcb2' 3 _
      hInv3).2 rfl
    refine ⟨by rw [hT]; exact hnot.1, by rw [hT]; exact hnot.2, ?_⟩
    intro tr₂ hs2
    rw [runTrace_append, runTrace_no_delivery sz cb run_id tr₂ _ hs2
      (by rw [hT]; exact hnot.2)]
    rw [hT]
    exact hnot.1

theorem C2_witness :
    ((∀ r : Record, 0 < (1 : Nat)) ∧
        isTerminalStatus
          ((fun e => if e = 2 then PipelineRunStatus.success else .started) 0) = false ∧
        isTerminalStatus
          ((fun e => if e = 2 then PipelineRunStatus.success else .started) 1) = false ∧
        (fun e => if e = 2 then PipelineRunStatus.success else .started) 2 =
          PipelineRunStatus.success ∧
        storesOf [.store 0, .notify, .store 1, .store 2] = [0, 1, 2]) ∧
      (runTrace (fun _ => 1)
          (fun e => if e = 2 then PipelineRunStatus.success else .started) "r1"
          (initTailer "r1")
          ([.store 0, .notify, .store 1, .store 2] ++ [.notify])).delivered =
        [0, 1, 2] ∧
      (runTrace (fun _ => 1)
          (fun e => if e = 2 then PipelineRunStatus.success else .started) "r1"
          (initTailer "r1")
          ([.store 0, .notify, .store 1, .store 2] ++
            [.notify])).store.watchers "r1" = false ∧
      (runTrace (fun _ => 1)
          (fun e => if e = 2 then PipelineRunStatus.success else .started) "r1"
          (initTailer "r1")
          ([.store 0, .notify, .store 1, .store 2] ++ [.notify] ++
            [.notify, .notify])).delivered = [0, 1, 2] := by
  have h := (C2_tail_exactness (fun _ => 1)
    (fun _ => Nat.one_pos) "r1" 0 1 2
    (fun e => if e = 2 then PipelineRunStatus.success else .started)
    (by decide) (by decide) (by decide)).2
    [.store 0, .notify, .store 1, .store 2] rfl
  exact ⟨⟨fun _ => Nat.one_pos, by decide, by decide, by decide, rfl⟩,
    h.1, h.2.1, h.2.2 [.notify, .notify] rfl⟩

/-- C5: for the filesystem backend, a file ending in a partially-written
(truncated) final record is read without error: `get_logs_for_run` from the
from-the-beginning cursor 0 returns exactly the complete records preceding
the truncation, the `EOFError` raised at the truncated trailing record being
caught by the `except EOFError: pass` of the read loop. -/
theorem C5_truncated_record_is_end_of_stream (sz : Record → Nat) (hsz : ∀ r, 0 < sz r)
    (s : FilesystemEventLogStorage) (run_id : RunId) (es : List Record)
    (hf : s.files run_id = some ⟨es, true⟩)
    (hv : cacheValid sz es (s.file_cursors run_id)) :
    (FilesystemEventLogStorage.get_logs_for_run sz s run_id 0).1 = .ok es := by
  obtain ⟨s', heq, -, -, -⟩ :=
    get_logs_for_run_ok sz hsz s run_id ⟨es, true⟩ 0 hf hv (Nat.zero_le _)
  rw [heq]
  simp

theorem C5_witness :
    (∀ r : Record, 0 < r + 1) ∧
      (FilesystemEventLogStorage.get_logs_for_run (fun r => r + 1)
        { files := fun r => if r = "r1" then some ⟨[10, 20], true⟩ else none,
          file_cursors := fun _ => (0, 0), watchers := fun _ => false }
        "r1" 0).1 = .ok [10, 20] :=
  ⟨fun r => Nat.succ_pos r,
    C5_truncated_record_is_end_of_stream (fun r => r + 1) (fun r => Nat.succ_pos r)
      _ "r1" [10, 20] (by simp) ⟨Nat.zero_le _, rfl⟩⟩

/-- C8: reading a run id never passed to `store_event` (from any state built
by a sequence of stores to other run ids, starting from the fresh state)
raises `FileNotFoundError` on the filesystem backend — the backing file does
not exist — and returns the empty sequence, not an error, on the in-memory
backend, for every cursor. -/
theorem C8_unknown_run (run : RunId) (ps : List (RunId × Record)) (sz : Record → Nat)
    (h : ∀ p ∈ ps, p.1 ≠ run) :
    (∀ cursor : Int,
        (InMemoryEventLogStorage.store_all .init ps).get_logs_for_run run cursor = []) ∧
    (∀ cursor : Nat,
        (FilesystemEventLogStorage.get_logs_for_run sz
          (FilesystemEventLogStorage.store_all .init ps) run cursor).1 =
          .error .fileNotFound) := by
  constructor
  · intro cursor
    rw [InMemoryEventLogStorage.get_logs_for_run, inMem_store_all_logs]
    have hfil : ps.filter (fun p => p.1 = run) = [] := by
      rw [List.filter_eq_nil_iff]
      intro p hp
      simpa using h p hp
    rw [hfil]
    simpa [InMemoryEventLogStorage.init] using pySliceFrom_nil (cursor + 1)
  · intro cursor
    rw [get_logs_for_run_notFound sz _ run cursor
      (fs_store_all_files_none ps _ run rfl h)]

theorem C8_witness :
    (∀ p ∈ [(("a" : RunId), (1 : Record)), ("b", 2)], p.1 ≠ "r") ∧
      (InMemoryEventLogStorage.store_all .init
        [(("a" : RunId), (1 : Record)), ("b", 2)]).get_logs_for_run "r" (-1) = [] ∧
      (FilesystemEventLogStorage.get_logs_for_run (fun _ => 1)
        (FilesystemEventLogStorage.store_all .init
          [(("a" : RunId), (1 : Record)), ("b", 2)]) "r" 0).1 = .error .fileNotFound := by
  have h : ∀ p ∈ [(("a" : RunId), (1 : Record)), ("b", 2)], p.1 ≠ "r" := by decide
  exact ⟨h, (C8_unknown_run "r" _ (fun _ => 1) h).1 (-1),
    (C8_unknown_run "r" _ (fun _ => 1) h).2 0⟩

/-- C9: for the in-memory backend with at least one stored record and a
cursor `c ≤ -2`, the Python slice `logs[c+1:]` counts from the end of the
log: the call returns the last `min (-(c+1)) n` records — not the whole log
in general, and no error. -/
theorem C9_negative_cursor_slices_from_end (s : InMemoryEventLogStorage)
    (run_id : RunId) (c : Int) (hc : c ≤ -2) (hn : 1 ≤ (s.logs run_id).length) :
    s.get_logs_for_run run_id c =
      (s.logs run_id).drop
        ((s.logs run_id).length - min (-(c + 1)).toNat (s.logs run_id).length) := by
  rw [InMemoryEventLogStorage.get_logs_for_run, pySliceFrom]
  have hneg : ¬ (0 ≤ c + 1) := by omega
  simp only [hneg, if_false]
  rcases Nat.le_total (-(c + 1)).toNat (s.logs run_id).length with hle | hge
  · rw [Nat.min_eq_left hle]
  · rw [Nat.min_eq_right hge]
    have h1 : (s.logs run_id).length - (-(c + 1)).toNat = 0 := Nat.sub_eq_zero_of_le hge
    rw [h1]
    simp

theorem C9_witness :
    ((-2 : Int) ≤ -2 ∧
        1 ≤ ((InMemoryEventLogStorage.store_all .init
          [(("r1" : RunId), (10 : Record)), ("r1", 20), ("r1", 30)]).logs "r1").length) ∧
      (InMemoryEventLogStorage.store_all .init
        [(("r1" : RunId), (10 : Record)), ("r1", 20), ("r1", 30)]).get_logs_for_run
          "r1" (-2) = [30] := by
  refine ⟨⟨le_refl _, by decide⟩, ?_⟩
  rw [C9_negative_cursor_slices_from_end _ "r1" (-2) (le_refl _) (by decide)]
  decide

/-- C10: for the filesystem backend, a cursor strictly greater than the
number of complete records in the file, with no matching cursor-cache entry,
makes the record-skipping loop hit end-of-file: the `EOFError` is raised out
of the call (it is outside the `try`/`except EOFError` block), no records are
returned, and the whole state — in particular the `file_cursors` entry for
the run — is unchanged, since the cache write on line 148 only happens after
the loop completes. -/
theorem C10_skip_past_eof_raises (sz : Record → Nat) (s : FilesystemEventLogStorage)
    (run_id : RunId) (f : FileContents) (c : Nat)
    (hf : s.files run_id = some f)
    (hc : f.records.length < c)
    (hmiss : (s.file_cursors run_id).1 ≠ c) :
    FilesystemEventLogStorage.get_logs_for_run sz s run_id c =
      (.error .eofDuringSkip, s) :=
  get_logs_for_run_eof sz s run_id f c hf hmiss hc

theorem C10_witness :
    (({ files := fun r => if r = "r1" then some ⟨[10, 20], false⟩ else none,
        file_cursors := fun _ => (0, 0),
        watchers := fun _ => false } : FilesystemEventLogStorage).files "r1" =
          some ⟨[10, 20], false⟩ ∧
        ([10, 20] : List Record).length < 5 ∧ (0 : Nat) ≠ 5) ∧
      FilesystemEventLogStorage.get_logs_for_run (fun _ => 1)
        { files := fun r => if r = "r1" then some ⟨[10, 20], false⟩ else none,
          file_cursors := fun _ => (0, 0), watchers := fun _ => false } "r1" 5 =
        (.error .eofDuringSkip,
          { files := fun r => if r = "r1" then some ⟨[10, 20], false⟩ else none,
            file_cursors := fun _ => (0, 0), watchers := fun _ => false }) :=
  ⟨⟨by simp, by decide, by decide⟩,
    C10_skip_past_eof_raises (fun _ => 1) _ "r1" ⟨[10, 20], false⟩ 5 (by simp)
      (by decide) (by decide)⟩

end EventLog
